import Mathlib

/-!
# Verification of `download_nexus.py` (maven-repo-migrator)

A shallow embedding of the pure core of `src/download_nexus.py`:
the Maven coordinate parser (`parse_artifact_info`), the snapshot
deduplicator (`filter_latest_snapshots`), the asset-search path filter
of `search_assets`, and the retry structure of `download_file`.

Strings are modelled as `List Char` (one entry per code point, mirroring
Python's `str`).  Python's regex character class `\d` is modelled as the
ASCII digits `Char.isDigit`; the regex `.` is modelled as "any character
other than a newline", exactly as in Python's `re` without `re.DOTALL`.
-/

namespace DownloadNexus

/-- Character strings, modelled as lists of code points (Python `str`). -/
abbrev Str := List Char

/-- Python's `<` on strings: lexicographic comparison of code points.
`strLtB a b = true` iff `a < b` in Python.  Used to model the comparison
`timestamp > version_latest_timestamp[key]` at line 193 of
`download_nexus.py` (with arguments swapped). -/
def strLtB : Str → Str → Bool
  | [], [] => false
  | [], _ :: _ => true
  | _ :: _, [] => false
  | a :: as, b :: bs =>
    if a.toNat < b.toNat then true
    else if b.toNat < a.toNat then false
    else strLtB as bs

/-- Python's substring test `needle in hay`. -/
def containsSub (needle : Str) : Str → Bool
  | [] => needle.isPrefixOf []
  | c :: cs => needle.isPrefixOf (c :: cs) || containsSub needle cs

/-- Python's `s.strip("/")`: drop every leading and trailing `'/'`. -/
def stripSlashes (cs : Str) : Str :=
  ((cs.dropWhile (fun c => c = '/')).reverse.dropWhile (fun c => c = '/')).reverse

/-- Python's `s.lstrip("/")`: drop every leading `'/'`. -/
def lstripSlashes (cs : Str) : Str :=
  cs.dropWhile (fun c => c = '/')

/-- Python's `s.split("/")`: split at every `'/'`, keeping empty pieces
(`"".split("/") = [""]`, `"a//b".split("/") = ["a", "", "b"]`). -/
def splitSlash : Str → List Str
  | [] => [[]]
  | '/' :: cs => [] :: splitSlash cs
  | c :: cs =>
    match splitSlash cs with
    | [] => [[c]]
    | s :: ss => (c :: s) :: ss

/-- Python's `"/".join(parts)`. -/
def joinSlash : List Str → Str
  | [] => []
  | [s] => s
  | s :: rest => s ++ '/' :: joinSlash rest

/-- Consume exactly `n` ASCII digits from the front (regex `\d{n}`),
returning the digits and the remainder, or `none`. -/
def takeDigits : Nat → Str → Option (Str × Str)
  | 0, cs => some ([], cs)
  | _ + 1, [] => none
  | n + 1, c :: cs =>
    if c.isDigit then
      match takeDigits n cs with
      | some (ds, rest) => some (c :: ds, rest)
      | none => none
    else none

/-- Consume the maximal run of ASCII digits from the front (greedy `\d*`). -/
def takeDigitRun : Str → Str × Str
  | [] => ([], [])
  | c :: cs =>
    if c.isDigit then
      match takeDigitRun cs with
      | (ds, rest) => (c :: ds, rest)
    else ([], c :: cs)

/-- Match the regex `-(\d{8}\.\d{6})-(\d+)\.` anchored at the front of the
input.  Returns the two capture groups `(\d{8}\.\d{6}, \d+)` on success.
The greedy `\d+` is forced to be the maximal digit run because the
following character must be a literal `'.'`, which is not a digit. -/
def matchTsAt (cs : Str) : Option (Str × Str) :=
  match cs with
  | '-' :: rest =>
    match takeDigits 8 rest with
    | some (d8, rest1) =>
      match rest1 with
      | '.' :: rest2 =>
        match takeDigits 6 rest2 with
        | some (d6, rest3) =>
          match rest3 with
          | '-' :: rest4 =>
            match takeDigitRun rest4 with
            | (dn, rest5) =>
              match dn, rest5 with
              | _ :: _, '.' :: _ => some (d8 ++ '.' :: d6, dn)
              | _, _ => none
          | _ => none
        | none => none
      | _ => none
    | none => none
  | _ => none

/-- Python's `re.search(r'-(\d{8}\.\d{6})-(\d+)\.', s)`: the leftmost
position at which the pattern matches, with its capture groups. -/
def searchTs : Str → Option (Str × Str)
  | [] => none
  | c :: cs =>
    match matchTsAt (c :: cs) with
    | some r => some r
    | none => searchTs cs

/-- Python's `re.match(r'^(.+)-\d{8}\.\d{6}-\d+$', version)`, returning
capture group 1 (the greedy `.+`).  Implemented from the right end of the
string: the final `\d+` must be the whole maximal trailing digit run
(the character before it has to be the literal `'-'`), which pins every
other piece of the pattern, so the decomposition is unique.  `.` does not
match a newline, hence the `'\n'` check on the kept group. -/
def matchVersionTs (cs : Str) : Option Str :=
  match takeDigitRun cs.reverse with
  | (dnR, rest1) =>
    match dnR, rest1 with
    | _ :: _, '-' :: rest2 =>
      match takeDigits 6 rest2 with
      | some (_, rest3) =>
        match rest3 with
        | '.' :: rest4 =>
          match takeDigits 8 rest4 with
          | some (_, rest5) =>
            match rest5 with
            | '-' :: rest6 =>
              if rest6 ≠ [] ∧ (∀ c ∈ rest6, c ≠ '\n') then some rest6.reverse
              else none
            | _ => none
          | none => none
        | _ => none
      | none => none
    | _, _ => none

/-- The declarative reading of the regex `^(.+)-\d{8}\.\d{6}-\d+$`:
the whole version splits as `p`, `'-'`, eight digits, `'.'`, six digits,
`'-'`, a nonempty digit run, with `p` nonempty and newline-free. -/
def VersionTsDecomp (v p : Str) : Prop :=
  ∃ d8 d6 dn : Str,
    v = p ++ '-' :: (d8 ++ '.' :: (d6 ++ '-' :: dn)) ∧
    p ≠ [] ∧ (∀ c ∈ p, c ≠ '\n') ∧
    d8.length = 8 ∧ (∀ c ∈ d8, c.isDigit = true) ∧
    d6.length = 6 ∧ (∀ c ∈ d6, c.isDigit = true) ∧
    dn ≠ [] ∧ (∀ c ∈ dn, c.isDigit = true)

/-- The literal `"-SNAPSHOT"` used throughout `download_nexus.py`. -/
def dashSnapshot : Str := "-SNAPSHOT".data

/-- Lines 148-153 of `download_nexus.py`: the base-version normalization.
`base_version = version`; if `"-SNAPSHOT" not in version` and the whole
version matches `^(.+)-\d{8}\.\d{6}-\d+$`, then
`base_version = prefix_group + "-SNAPSHOT"`. -/
def base_version_of (version : Str) : Str :=
  if containsSub dashSnapshot version then version
  else
    match matchVersionTs version with
    | some p => p ++ dashSnapshot
    | none => version

/-- Lines 141-144 of `download_nexus.py`: the optional build timestamp
extracted from the filename, `group(1) + "-" + group(2)`. -/
def timestamp_of (filename : Str) : Option Str :=
  match searchTs filename with
  | some (g1, g2) => some (g1 ++ '-' :: g2)
  | none => none

/-- The tuple returned by `parse_artifact_info`:
`(group_path, artifact_id, base_version, filename, timestamp)`. -/
structure ArtifactInfo where
  group_path : Str
  artifact_id : Str
  base_version : Str
  filename : Str
  timestamp : Option Str
deriving DecidableEq

/-- Lines 120-155 of `download_nexus.py`: strip slashes, split on `'/'`;
fewer than 4 segments is a parse failure (`None`); otherwise
`filename = parts[-1]`, `version = parts[-2]`, `artifact_id = parts[-3]`,
`group_path = "/".join(parts[:-3])`, together with the extracted
timestamp and normalized base version. -/
def parse_artifact_info (path : Str) : Option ArtifactInfo :=
  match (splitSlash (stripSlashes path)).reverse with
  | filename :: version :: artifact_id :: g :: gs =>
    some { group_path := joinSlash (g :: gs).reverse
         , artifact_id := artifact_id
         , base_version := base_version_of version
         , filename := filename
         , timestamp := timestamp_of filename }
  | _ => none

/-- Lines 158-166 of `download_nexus.py`:
`f"{group_path}/{artifact_id}/{base_version}"`. -/
def get_version_key (group_path artifact_id base_version : Str) : Str :=
  group_path ++ '/' :: artifact_id ++ '/' :: base_version

/-- One asset record, as returned by the Nexus search API and consumed by
`filter_latest_snapshots` and the download loop.  The source reads the
fields with `asset.get("path", "")` and `asset.get("downloadUrl", "")`, so
a missing field is modelled as the empty string. -/
structure AssetRecord where
  path : Str
  downloadUrl : Str
deriving DecidableEq

/-- The snapshot-family test shared by both passes of
`filter_latest_snapshots` (lines 187 and 203):
`"-SNAPSHOT" in path or re.search(r'-\d{8}\.\d{6}-\d+\.', path)`. -/
def isSnapshotFamily (path : Str) : Bool :=
  containsSub dashSnapshot path || (searchTs path).isSome

/-- The branch a record falls into in either pass of
`filter_latest_snapshots`.  Both passes run the same chain
(lines 181-194 and 198-214): strip the path, skip it when empty, test the
snapshot-family condition, parse the coordinate, and inspect the
timestamp.  `snapTs` also carries the version key computed at line 192/207. -/
inductive AssetClass where
  | emptyPath : AssetClass
  | plain : AssetClass
  | snapNoParse : AssetClass
  | snapNoTs (info : ArtifactInfo) : AssetClass
  | snapTs (info : ArtifactInfo) (key ts : Str) : AssetClass
deriving DecidableEq

/-- The shared classification chain of both passes of
`filter_latest_snapshots` (see `AssetClass`). -/
def classify (a : AssetRecord) : AssetClass :=
  let path := stripSlashes a.path
  if path = [] then .emptyPath
  else if isSnapshotFamily path then
    match parse_artifact_info path with
    | some info =>
      match info.timestamp with
      | some ts =>
        .snapTs info (get_version_key info.group_path info.artifact_id info.base_version) ts
      | none => .snapNoTs info
    | none => .snapNoParse
  else .plain

/-- Python `dict` lookup `m.get(k)` / `k in m`, on an association list. -/
def dictGet (m : List (Str × Str)) (k : Str) : Option Str :=
  match m with
  | [] => none
  | (k', v) :: rest => if k = k' then some v else dictGet rest k

/-- Python `dict` assignment `m[k] = v`. -/
def dictSet (m : List (Str × Str)) (k v : Str) : List (Str × Str) :=
  match m with
  | [] => [(k, v)]
  | (k', v') :: rest => if k' = k then (k', v) :: rest else (k', v') :: dictSet rest k v

/-- One step of the scan pass (lines 181-194 of `download_nexus.py`):
for a timestamped snapshot-family record,
`if key not in version_latest_timestamp or timestamp > version_latest_timestamp[key]:
version_latest_timestamp[key] = timestamp`. -/
def scan_update (m : List (Str × Str)) (a : AssetRecord) : List (Str × Str) :=
  match classify a with
  | .snapTs _ key ts =>
    match dictGet m key with
    | none => dictSet m key ts
    | some stored => if strLtB stored ts then dictSet m key ts else m
  | _ => m

/-- The whole scan pass: the `version_latest_timestamp` mapping after
lines 177-194 of `download_nexus.py`. -/
def version_latest (assets : List AssetRecord) : List (Str × Str) :=
  assets.foldl scan_update []

/-- Where the filter pass (lines 196-214) puts a record: into the
`non_snapshot` list, into the `latest_snapshots` list, or nowhere
(the `continue` on an empty path). -/
inductive Bucket where
  | nonSnap : Bucket
  | keptSnap : Bucket
  | dropped : Bucket
deriving DecidableEq

/-- The filter pass decision for one record (lines 198-214 of
`download_nexus.py`), given the scan result `m`: an empty path is skipped;
a snapshot-family record that parses is kept iff it has no timestamp or
its timestamp equals `version_latest_timestamp.get(key)`; a
snapshot-family record that fails to parse, and every non-snapshot
record, goes to `non_snapshot`. -/
def bucket_of (m : List (Str × Str)) (a : AssetRecord) : Bucket :=
  match classify a with
  | .emptyPath => .dropped
  | .plain => .nonSnap
  | .snapNoParse => .nonSnap
  | .snapNoTs _ => .keptSnap
  | .snapTs _ key ts => if dictGet m key = some ts then .keptSnap else .dropped

/-- Lines 169-216 of `download_nexus.py`: the snapshot deduplicator.
The two appends of the filter pass preserve input order inside each list,
so the pass is the pair of filters below; the result is
`non_snapshot + latest_snapshots`. -/
def filter_latest_snapshots (assets : List AssetRecord) : List AssetRecord :=
  let m := version_latest assets
  assets.filter (fun a => decide (bucket_of m a = Bucket.nonSnap)) ++
    assets.filter (fun a => decide (bucket_of m a = Bucket.keptSnap))

/-- The timestamps the scan pass observes for version key `k`: one entry
per timestamped snapshot-family record of the input whose version key is
`k`, in input order. -/
def observed_ts (assets : List AssetRecord) (k : Str) : List Str :=
  assets.filterMap (fun a =>
    match classify a with
    | .snapTs _ key ts => if key = k then some ts else none
    | _ => none)

/-- Left fold taking the maximum of a starting value and a list under the
string order `strLtB` (ties keep the earlier value, as in the scan pass). -/
def maxAcc (s : Str) (l : List Str) : Str :=
  l.foldl (fun acc t => if strLtB acc t then t else acc) s

/-- Test that `ts` is a maximum of the timestamps observed for key `k`: it is
observed, and no observed timestamp is strictly greater. -/
def isMaxObservedB (assets : List AssetRecord) (k ts : Str) : Bool :=
  decide (ts ∈ observed_ts assets k) &&
    (observed_ts assets k).all (fun u => !strLtB ts u)

/-- Line 57 of `download_nexus.py`: `group_id.replace(".", "/")`. -/
def group_to_path_pfx (group_id : Str) : Str :=
  group_id.map (fun c => if c = '.' then '/' else c)

/-- Lines 106-109 of `download_nexus.py`: the client-side path filter of
`search_assets`.  `item_path = item.get("path", "").lstrip("/")`; the
record is appended iff
`item_path.startswith(path_pfx + "/") or item_path.startswith(path_pfx)`. -/
def search_keep (pfx : Str) (item : AssetRecord) : Bool :=
  let item_path := lstripSlashes item.path
  (pfx ++ ['/']).isPrefixOf item_path || pfx.isPrefixOf item_path

/-- The filtering applied to one page of search results
(the `for item in items` loop of lines 106-109, which appends in order). -/
def search_filter (pfx : Str) (items : List AssetRecord) : List AssetRecord :=
  items.filter (search_keep pfx)

/-- What one HTTP GET attempt inside `download_file` does, as observed by
the control flow of lines 235-258: status 404, success (any status that
passes `raise_for_status` followed by a completed write), or a
`requests.RequestException` (network error or non-2xx status). -/
inductive AttemptResult where
  | notFound : AttemptResult
  | success : AttemptResult
  | transient : AttemptResult
deriving DecidableEq

/-- The `for attempt in range(retries)` loop of `download_file`
(lines 235-260), over a fixed sequence `o` of attempt outcomes:
404 returns `(False, True)` at once; success returns `(True, False)`; a
`RequestException` retries, and the run ends with `(False, False)` when
the attempts are exhausted (the source returns `(False, False)` already
on the last attempt's exception, which yields the same value). -/
def download_file_go (o : Nat → AttemptResult) : Nat → Nat → Bool × Bool
  | 0, _ => (false, false)
  | fuel + 1, attempt =>
    match o attempt with
    | .notFound => (false, true)
    | .success => (true, false)
    | .transient => download_file_go o fuel (attempt + 1)

/-- The function `download_file(url, local_path, auth, retries)` of `download_nexus.py`,
restricted to its observable retry behaviour: the pair
`(success, skipped)` it returns, as a function of the outcome of each
attempt. -/
def download_file (o : Nat → AttemptResult) (retries : Nat) : Bool × Bool :=
  download_file_go o retries 0


/-- The literal `"SNAPSHOT"` (no leading hyphen), used by the spec's
wording of the base-version guard. -/
def snapshotWord : Str := "SNAPSHOT".data

/-- Base-version normalization as claim C3 words it: the guard is
"version contains the literal substring SNAPSHOT" (without the leading
hyphen that the source tests for). -/
def base_version_claimC3 (version : Str) : Str :=
  if containsSub snapshotWord version then version
  else
    match matchVersionTs version with
    | some p => p ++ dashSnapshot
    | none => version

/-- The output shape claim C6 asserts: all non-snapshot records first,
then all retained snapshot-family records, where a snapshot-family record
is retained when its parse failed, it has no timestamp, or its timestamp
is a maximum observed for its key. -/
def claimC6_output (assets : List AssetRecord) : List AssetRecord :=
  assets.filter (fun a => !isSnapshotFamily (stripSlashes a.path)) ++
    assets.filter (fun a => isSnapshotFamily (stripSlashes a.path) &&
      (match parse_artifact_info (stripSlashes a.path) with
       | none => true
       | some info =>
         match info.timestamp with
         | none => true
         | some ts => isMaxObservedB assets
             (get_version_key info.group_path info.artifact_id info.base_version) ts))

/-- First output group of the amended claim C6: records with a nonempty
normalized path that are non-snapshot or snapshot-family with a failed
coordinate parse. -/
def amendedC6_first (a : AssetRecord) : Bool :=
  decide (stripSlashes a.path ≠ []) &&
    (!isSnapshotFamily (stripSlashes a.path) ||
      (parse_artifact_info (stripSlashes a.path)).isNone)

/-- Second output group of the amended claim C6: parsed snapshot-family
records with a nonempty normalized path, kept for lack of a timestamp or
for carrying a maximum observed timestamp of their key. -/
def amendedC6_second (assets : List AssetRecord) (a : AssetRecord) : Bool :=
  decide (stripSlashes a.path ≠ []) && isSnapshotFamily (stripSlashes a.path) &&
    (match parse_artifact_info (stripSlashes a.path) with
     | none => false
     | some info =>
       match info.timestamp with
       | none => true
       | some ts => isMaxObservedB assets
           (get_version_key info.group_path info.artifact_id info.base_version) ts)

/-- A timestamped snapshot jar (build timestamp `20230101.123456-1`). -/
def assetC1 : AssetRecord :=
  { path := "com/acme/lib/1.0-SNAPSHOT/lib-1.0-20230101.123456-1.jar".data
  , downloadUrl := "c1".data }

/-- A snapshot jar with build number 9. -/
def assetBuild9 : AssetRecord :=
  { path := "com/acme/lib/1.0-SNAPSHOT/lib-1.0-20230101.100000-9.jar".data
  , downloadUrl := "u9".data }

/-- A snapshot jar with build number 10, same date and time as
`assetBuild9`. -/
def assetBuild10 : AssetRecord :=
  { path := "com/acme/lib/1.0-SNAPSHOT/lib-1.0-20230101.100000-10.jar".data
  , downloadUrl := "u10".data }

/-- A record from sibling group `com/example2` that shares the string
prefix `com/example`. -/
def assetSibling : AssetRecord :=
  { path := "com/example2/lib/1.0/lib-1.0.jar".data, downloadUrl := "s".data }

/-- A record whose `path` field is missing or empty (the source defaults a
missing field to `""`). -/
def assetEmptyPath : AssetRecord := { path := [], downloadUrl := "e".data }

/-- A snapshot-family record (its path contains `-SNAPSHOT`) whose
one-segment path fails coordinate parsing. -/
def assetBadSnap : AssetRecord := { path := "lib-SNAPSHOT".data, downloadUrl := "x".data }

/-- An ordinary release jar: not snapshot-family. -/
def assetPlainJar : AssetRecord :=
  { path := "com/acme/lib/1.0/lib-1.0.jar".data, downloadUrl := "z".data }

/-- An ordinary release jar used as a witness input. -/
def assetC9 : AssetRecord :=
  { path := "com/acme/lib/2.0/lib-2.0.jar".data, downloadUrl := "c9".data }

/-! ## The string order `strLtB` is a strict total order -/

theorem char_toNat_inj {a b : Char} (h : a.toNat = b.toNat) : a = b := by
  have h2 := congrArg Char.ofNat h
  simpa [Char.ofNat_toNat] using h2

theorem strLtB_irrefl : ∀ s : Str, strLtB s s = false
  | [] => rfl
  | c :: cs => by simp [strLtB, strLtB_irrefl cs]

theorem strLtB_asymm (a : Str) : ∀ b : Str, strLtB a b = true → strLtB b a = false := by
  induction a with
  | nil =>
    intro b h
    cases b with
    | nil => simp [strLtB] at h
    | cons y bs => rfl
  | cons x as ih =>
    intro b h
    cases b with
    | nil => simp [strLtB] at h
    | cons y bs =>
      simp only [strLtB] at h ⊢
      by_cases h1 : x.toNat < y.toNat
      · have h2 : ¬ y.toNat < x.toNat := by omega
        simp [h1, h2]
      · by_cases h2 : y.toNat < x.toNat
        · simp [h1, h2] at h
        · simp only [h1, h2, if_false] at h ⊢
          exact ih bs h

theorem strLtB_ge_trans (a : Str) :
    ∀ b c : Str, strLtB a b = false → strLtB b c = false → strLtB a c = false := by
  induction a with
  | nil =>
    intro b c h1 h2
    cases b with
    | nil =>
      cases c with
      | nil => rfl
      | cons z cs => simp [strLtB] at h2
    | cons y bs => simp [strLtB] at h1
  | cons x as ih =>
    intro b c h1 h2
    cases b with
    | nil =>
      cases c with
      | nil => rfl
      | cons z cs => simp [strLtB] at h2
    | cons y bs =>
      cases c with
      | nil => rfl
      | cons z cs =>
        simp only [strLtB] at h1 h2 ⊢
        by_cases hxy : x.toNat < y.toNat
        · simp [hxy] at h1
        · by_cases hyz : y.toNat < z.toNat
          · simp [hyz] at h2
          · by_cases hxz : x.toNat < z.toNat
            · omega
            · simp only [hxz, if_false]
              by_cases hzx : z.toNat < x.toNat
              · simp [hzx]
              · simp only [hzx, if_false]
                have hyx : ¬ y.toNat < x.toNat := by omega
                have hzy : ¬ z.toNat < y.toNat := by omega
                simp only [hxy, hyx, if_false] at h1
                simp only [hyz, hzy, if_false] at h2
                exact ih bs cs h1 h2

theorem strLtB_antisymm (a : Str) :
    ∀ b : Str, strLtB a b = false → strLtB b a = false → a = b := by
  induction a with
  | nil =>
    intro b h1 _
    cases b with
    | nil => rfl
    | cons y bs => simp [strLtB] at h1
  | cons x as ih =>
    intro b h1 h2
    cases b with
    | nil => simp [strLtB] at h2
    | cons y bs =>
      simp only [strLtB] at h1 h2
      by_cases hxy : x.toNat < y.toNat
      · simp [hxy] at h1
      · by_cases hyx : y.toNat < x.toNat
        · simp [hyx] at h2
        · simp only [hxy, hyx, if_false] at h1 h2
          have hx : x = y := char_toNat_inj (by omega)
          rw [hx, ih bs h1 h2]

/-! ## `maxAcc` computes a maximum under `strLtB` -/

theorem maxAcc_nil (s : Str) : maxAcc s [] = s := rfl

theorem maxAcc_cons (s t : Str) (l : List Str) :
    maxAcc s (t :: l) = maxAcc (if strLtB s t then t else s) l := rfl

theorem maxAcc_mem (l : List Str) : ∀ s, maxAcc s l ∈ s :: l := by
  induction l with
  | nil => intro s; simp [maxAcc_nil]
  | cons t l ih =>
    intro s
    rw [maxAcc_cons]
    rcases List.mem_cons.mp (ih (if strLtB s t then t else s)) with h | h
    · rw [h]
      by_cases hst : strLtB s t <;> simp [hst]
    · simp [List.mem_cons.mpr (Or.inr h)]

theorem maxAcc_ge (l : List Str) : ∀ s u, u ∈ s :: l → strLtB (maxAcc s l) u = false := by
  induction l with
  | nil =>
    intro s u hu
    rw [List.mem_singleton] at hu
    rw [hu, maxAcc_nil]
    exact strLtB_irrefl s
  | cons t l ih =>
    intro s u hu
    rw [maxAcc_cons]
    have hs's : strLtB (if strLtB s t then t else s) s = false := by
      by_cases h : strLtB s t
      · simpa [h] using strLtB_asymm s t h
      · simp [h, strLtB_irrefl]
    have hs't : strLtB (if strLtB s t then t else s) t = false := by
      by_cases h : strLtB s t
      · simp [h, strLtB_irrefl]
      · simp [h]
    have hm : strLtB (maxAcc (if strLtB s t then t else s) l) (if strLtB s t then t else s)
        = false := ih _ _ (List.mem_cons_self _ _)
    rcases List.mem_cons.mp hu with h | h
    · exact strLtB_ge_trans _ _ _ hm (h ▸ hs's)
    · rcases List.mem_cons.mp h with h2 | h2
      · exact strLtB_ge_trans _ _ _ hm (h2 ▸ hs't)
      · exact ih _ _ (List.mem_cons.mpr (Or.inr h2))

/-! ## Python dict lemmas -/

theorem dictGet_dictSet_self (m : List (Str × Str)) (k v : Str) :
    dictGet (dictSet m k v) k = some v := by
  induction m with
  | nil => simp [dictSet, dictGet]
  | cons p rest ih =>
    obtain ⟨k', v'⟩ := p
    by_cases h : k' = k
    · simp [dictSet, dictGet, h]
    · simp only [dictSet, h, if_false]
      simpa [dictGet, Ne.symm h] using ih

theorem dictGet_dictSet_ne (m : List (Str × Str)) (k v k' : Str) (h : k' ≠ k) :
    dictGet (dictSet m k v) k' = dictGet m k' := by
  induction m with
  | nil => simp [dictSet, dictGet, h]
  | cons p rest ih =>
    obtain ⟨k0, v0⟩ := p
    by_cases h0 : k0 = k
    · subst h0
      simp [dictSet, dictGet, h]
    · simp only [dictSet, h0, if_false]
      by_cases h1 : k' = k0 <;> simp [dictGet, h1, ih]

/-! ## Inversion of the shared classification chain -/

theorem classify_emptyPath_iff (a : AssetRecord) :
    classify a = AssetClass.emptyPath ↔ stripSlashes a.path = [] := by
  unfold classify
  by_cases h1 : stripSlashes a.path = []
  · simp [h1]
  · by_cases h2 : isSnapshotFamily (stripSlashes a.path) <;>
      simp only [h1, h2, if_true, if_false]
    · cases hp : parse_artifact_info (stripSlashes a.path) with
      | none => simp [h1]
      | some info0 => cases hts : info0.timestamp <;> simp [hts, h1]
    · simp [h1]

theorem classify_plain_iff (a : AssetRecord) :
    classify a = AssetClass.plain ↔
      stripSlashes a.path ≠ [] ∧ isSnapshotFamily (stripSlashes a.path) = false := by
  unfold classify
  by_cases h1 : stripSlashes a.path = []
  · simp [h1]
  · by_cases h2 : isSnapshotFamily (stripSlashes a.path) <;>
      simp only [h1, h2, if_true, if_false]
    · cases hp : parse_artifact_info (stripSlashes a.path) with
      | none => simp [h2]
      | some info0 => cases hts : info0.timestamp <;> simp [hts, h2]
    · simp [h1, h2]

theorem classify_snapNoParse_iff (a : AssetRecord) :
    classify a = AssetClass.snapNoParse ↔
      stripSlashes a.path ≠ [] ∧ isSnapshotFamily (stripSlashes a.path) = true ∧
        parse_artifact_info (stripSlashes a.path) = none := by
  unfold classify
  by_cases h1 : stripSlashes a.path = []
  · simp [h1]
  · by_cases h2 : isSnapshotFamily (stripSlashes a.path) <;>
      simp only [h1, h2, if_true, if_false]
    · cases hp : parse_artifact_info (stripSlashes a.path) with
      | none => simp [h1, h2]
      | some info0 => cases hts : info0.timestamp <;> simp [hts, h1, h2]
    · simp [h2]

theorem classify_snapNoTs_iff (a : AssetRecord) (info : ArtifactInfo) :
    classify a = AssetClass.snapNoTs info ↔
      stripSlashes a.path ≠ [] ∧ isSnapshotFamily (stripSlashes a.path) = true ∧
        parse_artifact_info (stripSlashes a.path) = some info ∧ info.timestamp = none := by
  unfold classify
  by_cases h1 : stripSlashes a.path = []
  · simp [h1]
  · by_cases h2 : isSnapshotFamily (stripSlashes a.path) <;>
      simp only [h1, h2, if_true, if_false]
    · cases hp : parse_artifact_info (stripSlashes a.path) with
      | none => simp
      | some info0 =>
        cases hts : info0.timestamp with
        | none =>
          simp only [hts, AssetClass.snapNoTs.injEq, Option.some.injEq, ne_eq, h1,
            not_false_eq_true, true_and]
          constructor
          · rintro rfl
            exact ⟨rfl, hts⟩
          · rintro ⟨rfl, -⟩
            rfl
        | some ts0 =>
          simp only [hts]
          constructor
          · rintro h
            simp at h
          · rintro ⟨-, -, heq, hn⟩
            rw [Option.some.injEq] at heq
            subst heq
            rw [hts] at hn
            exact Option.noConfusion hn
    · simp [h2]

theorem classify_snapTs_iff (a : AssetRecord) (info : ArtifactInfo) (key ts : Str) :
    classify a = AssetClass.snapTs info key ts ↔
      stripSlashes a.path ≠ [] ∧ isSnapshotFamily (stripSlashes a.path) = true ∧
        parse_artifact_info (stripSlashes a.path) = some info ∧ info.timestamp = some ts ∧
        key = get_version_key info.group_path info.artifact_id info.base_version := by
  unfold classify
  by_cases h1 : stripSlashes a.path = []
  · simp [h1]
  · by_cases h2 : isSnapshotFamily (stripSlashes a.path) <;>
      simp only [h1, h2, if_true, if_false]
    · cases hp : parse_artifact_info (stripSlashes a.path) with
      | none => simp
      | some info0 =>
        cases hts : info0.timestamp with
        | none =>
          simp only [hts]
          constructor
          · rintro h
            simp at h
          · rintro ⟨-, -, heq, hs, -⟩
            rw [Option.some.injEq] at heq
            subst heq
            rw [hts] at hs
            exact Option.noConfusion hs
        | some ts0 =>
          simp only [hts, AssetClass.snapTs.injEq, Option.some.injEq, ne_eq, h1,
            not_false_eq_true, true_and]
          constructor
          · rintro ⟨rfl, hk, rfl⟩
            exact ⟨rfl, hts, hk.symm⟩
          · rintro ⟨rfl, hs, hk⟩
            rw [hts] at hs
            rw [Option.some.injEq] at hs
            subst hs
            exact ⟨rfl, hk.symm, rfl⟩
    · simp [h2]


/-! ## The scan pass computes the per-key maximum observed timestamp -/

theorem observed_ts_nil (k : Str) : observed_ts [] k = [] := rfl

theorem observed_ts_cons (a : AssetRecord) (rest : List AssetRecord) (k : Str) :
    observed_ts (a :: rest) k =
      (match classify a with
        | AssetClass.snapTs _ key ts => if key = k then some ts else none
        | _ => none).toList ++ observed_ts rest k := by
  cases hc : classify a <;> simp [observed_ts, List.filterMap_cons, hc]
  · rename_i info key ts
    by_cases hk : key = k <;> simp [hk]

theorem version_latest_get_aux (assets : List AssetRecord) :
    ∀ (m : List (Str × Str)) (k : Str),
      dictGet (List.foldl scan_update m assets) k =
        match dictGet m k, observed_ts assets k with
        | none, [] => none
        | none, t :: ts => some (maxAcc t ts)
        | some s, obs => some (maxAcc s obs) := by
  induction assets with
  | nil =>
    intro m k
    cases h : dictGet m k <;> simp [observed_ts_nil, h, maxAcc_nil]
  | cons a rest ih =>
    intro m k
    rw [List.foldl_cons]
    cases hc : classify a with
    | snapTs info key ts =>
      by_cases hk : key = k
      · subst hk
        have hobs : observed_ts (a :: rest) key = ts :: observed_ts rest key := by
          rw [observed_ts_cons, hc]; simp
        rw [ih (scan_update m a) key, hobs]
        cases hv : dictGet m key with
        | none =>
          have hd : dictGet (scan_update m a) key = some ts := by
            simp [scan_update, hc, hv, dictGet_dictSet_self]
          rw [hd]
        | some stored =>
          by_cases hlt : strLtB stored ts
          · have hd : dictGet (scan_update m a) key = some ts := by
              simp [scan_update, hc, hv, hlt, dictGet_dictSet_self]
            rw [hd]
            simp [maxAcc_cons, hlt]
          · have hd : dictGet (scan_update m a) key = some stored := by
              simp [scan_update, hc, hv, hlt]
            rw [hd]
            simp [maxAcc_cons, hlt]
      · have hobs : observed_ts (a :: rest) k = observed_ts rest k := by
          rw [observed_ts_cons, hc]; simp [hk]
        have hget : dictGet (scan_update m a) k = dictGet m k := by
          cases hv : dictGet m key with
          | none =>
            simp [scan_update, hc, hv, dictGet_dictSet_ne m key ts k (fun h => hk h.symm)]
          | some stored =>
            by_cases hlt : strLtB stored ts
            · simp [scan_update, hc, hv, hlt,
                dictGet_dictSet_ne m key ts k (fun h => hk h.symm)]
            · simp [scan_update, hc, hv, hlt]
        rw [ih (scan_update m a) k, hget, hobs]
    | emptyPath =>
      have hscan : scan_update m a = m := by simp [scan_update, hc]
      have hobs : observed_ts (a :: rest) k = observed_ts rest k := by
        rw [observed_ts_cons, hc]; simp
      rw [ih (scan_update m a) k, hscan, hobs]
    | plain =>
      have hscan : scan_update m a = m := by simp [scan_update, hc]
      have hobs : observed_ts (a :: rest) k = observed_ts rest k := by
        rw [observed_ts_cons, hc]; simp
      rw [ih (scan_update m a) k, hscan, hobs]
    | snapNoParse =>
      have hscan : scan_update m a = m := by simp [scan_update, hc]
      have hobs : observed_ts (a :: rest) k = observed_ts rest k := by
        rw [observed_ts_cons, hc]; simp
      rw [ih (scan_update m a) k, hscan, hobs]
    | snapNoTs info =>
      have hscan : scan_update m a = m := by simp [scan_update, hc]
      have hobs : observed_ts (a :: rest) k = observed_ts rest k := by
        rw [observed_ts_cons, hc]; simp
      rw [ih (scan_update m a) k, hscan, hobs]

theorem dictGet_version_latest (assets : List AssetRecord) (k : Str) :
    dictGet (version_latest assets) k =
      match observed_ts assets k with
      | [] => none
      | t :: ts => some (maxAcc t ts) := by
  have h := version_latest_get_aux assets [] k
  rw [version_latest, h]
  have hd : dictGet ([] : List (Str × Str)) k = none := rfl
  rw [hd]
  cases observed_ts assets k <;> rfl

theorem dictGet_version_latest_iff (assets : List AssetRecord) (k t : Str) :
    dictGet (version_latest assets) k = some t ↔
      (t ∈ observed_ts assets k ∧ ∀ u ∈ observed_ts assets k, strLtB t u = false) := by
  rw [dictGet_version_latest]
  cases hobs : observed_ts assets k with
  | nil => simp
  | cons t0 tl =>
    simp only [Option.some.injEq]
    constructor
    · rintro h
      subst h
      exact ⟨maxAcc_mem tl t0, fun u hu => maxAcc_ge tl t0 u hu⟩
    · rintro ⟨hmem, hge⟩
      have h1 : strLtB t (maxAcc t0 tl) = false := hge _ (maxAcc_mem tl t0)
      have h2 : strLtB (maxAcc t0 tl) t = false := maxAcc_ge tl t0 t hmem
      exact strLtB_antisymm _ _ h2 h1

/-! ## Correctness of the version-timestamp regex matcher -/

theorem takeDigits_sound (n : Nat) :
    ∀ cs ds rest : Str, takeDigits n cs = some (ds, rest) →
      cs = ds ++ rest ∧ ds.length = n ∧ ∀ c ∈ ds, c.isDigit = true := by
  induction n with
  | zero =>
    intro cs ds rest h
    simp only [takeDigits, Option.some.injEq, Prod.mk.injEq] at h
    obtain ⟨h1, h2⟩ := h
    subst h1; subst h2
    simp
  | succ n ih =>
    intro cs ds rest h
    cases cs with
    | nil => simp [takeDigits] at h
    | cons c cs2 =>
      simp only [takeDigits] at h
      by_cases hd : c.isDigit
      · rw [if_pos hd] at h
        cases hr : takeDigits n cs2 with
        | none => rw [hr] at h; exact Option.noConfusion h
        | some pr =>
          obtain ⟨ds2, rest2⟩ := pr
          rw [hr] at h
          simp only [Option.some.injEq, Prod.mk.injEq] at h
          obtain ⟨h1, h2⟩ := h
          obtain ⟨e1, e2, e3⟩ := ih cs2 ds2 rest2 hr
          subst h1; subst h2
          constructor
          · rw [List.cons_append, e1]
          constructor
          · simp [e2]
          · intro x hx
            rcases List.mem_cons.mp hx with h | h
            · rw [h]; exact hd
            · exact e3 x h
      · rw [if_neg hd] at h
        exact Option.noConfusion h

theorem takeDigits_complete :
    ∀ ds rest : Str, (∀ c ∈ ds, c.isDigit = true) →
      takeDigits ds.length (ds ++ rest) = some (ds, rest) := by
  intro ds
  induction ds with
  | nil => intro rest _; rfl
  | cons c ds2 ih =>
    intro rest hall
    have hc := hall c (List.mem_cons_self _ _)
    have hrec := ih rest (fun x hx => hall x (List.mem_cons_of_mem _ hx))
    simp [takeDigits, hc, hrec]

theorem takeDigitRun_sound :
    ∀ cs ds rest : Str, takeDigitRun cs = (ds, rest) →
      cs = ds ++ rest ∧ (∀ c ∈ ds, c.isDigit = true) ∧
        (∀ c cs2, rest = c :: cs2 → c.isDigit = false) := by
  intro cs
  induction cs with
  | nil =>
    intro ds rest h
    simp only [takeDigitRun, Prod.mk.injEq] at h
    obtain ⟨h1, h2⟩ := h
    subst h1; subst h2
    simp
  | cons c cs2 ih =>
    intro ds rest h
    simp only [takeDigitRun] at h
    by_cases hd : c.isDigit
    · rw [if_pos hd] at h
      rcases hr : takeDigitRun cs2 with ⟨ds2, rest2⟩
      rw [hr] at h
      simp only [Prod.mk.injEq] at h
      obtain ⟨h1, h2⟩ := h
      obtain ⟨e1, e2, e3⟩ := ih ds2 rest2 hr
      subst h1; subst h2
      refine ⟨by rw [List.cons_append, e1], ?_, e3⟩
      intro x hx
      rcases List.mem_cons.mp hx with h | h
      · rw [h]; exact hd
      · exact e2 x h
    · rw [if_neg hd] at h
      simp only [Prod.mk.injEq] at h
      obtain ⟨h1, h2⟩ := h
      subst h1; subst h2
      refine ⟨rfl, by simp, ?_⟩
      intro x cs3 hx
      cases hx
      simpa using hd

theorem takeDigitRun_complete :
    ∀ ds rest : Str, (∀ c ∈ ds, c.isDigit = true) →
      (∀ c cs2, rest = c :: cs2 → c.isDigit = false) →
      takeDigitRun (ds ++ rest) = (ds, rest) := by
  intro ds
  induction ds with
  | nil =>
    intro rest _ hhead
    cases rest with
    | nil => rfl
    | cons c cs2 => simp [takeDigitRun, hhead c cs2 rfl]
  | cons c ds2 ih =>
    intro rest hall hhead
    have hc := hall c (List.mem_cons_self _ _)
    have hrec := ih rest (fun x hx => hall x (List.mem_cons_of_mem _ hx)) hhead
    simp [takeDigitRun, hc, hrec]

theorem matchVersionTs_complete (v p : Str) (h : VersionTsDecomp v p) :
    matchVersionTs v = some p := by
  obtain ⟨d8, d6, dn, hv, hp, hnl, h8len, h8dig, h6len, h6dig, hdnne, hdndig⟩ := h
  have hrev : v.reverse =
      dn.reverse ++ '-' :: (d6.reverse ++ '.' :: (d8.reverse ++ '-' :: p.reverse)) := by
    subst hv
    simp [List.reverse_append, List.reverse_cons, List.append_assoc]
  have hrun : takeDigitRun v.reverse =
      (dn.reverse, '-' :: (d6.reverse ++ '.' :: (d8.reverse ++ '-' :: p.reverse))) := by
    rw [hrev]
    refine takeDigitRun_complete _ _ (fun c hc => hdndig c (List.mem_reverse.mp hc)) ?_
    intro c cs2 hcc
    cases hcc
    decide
  have hd6 : takeDigits 6 (d6.reverse ++ '.' :: (d8.reverse ++ '-' :: p.reverse)) =
      some (d6.reverse, '.' :: (d8.reverse ++ '-' :: p.reverse)) := by
    have h := takeDigits_complete d6.reverse ('.' :: (d8.reverse ++ '-' :: p.reverse))
      (fun c hc => h6dig c (List.mem_reverse.mp hc))
    rwa [List.length_reverse, h6len] at h
  have hd8 : takeDigits 8 (d8.reverse ++ '-' :: p.reverse) =
      some (d8.reverse, '-' :: p.reverse) := by
    have h := takeDigits_complete d8.reverse ('-' :: p.reverse)
      (fun c hc => h8dig c (List.mem_reverse.mp hc))
    rwa [List.length_reverse, h8len] at h
  obtain ⟨y, ys, hys⟩ := List.exists_cons_of_ne_nil (by simpa using hdnne : dn.reverse ≠ [])
  rw [hys] at hrun
  unfold matchVersionTs
  rw [hrun]
  simp only [hd6, hd8]
  have hcond : p.reverse ≠ [] ∧ ∀ c ∈ p.reverse, c ≠ '\n' := by
    refine ⟨by simpa using hp, fun c hc => hnl c (List.mem_reverse.mp hc)⟩
  rw [if_pos hcond, List.reverse_reverse]

theorem matchVersionTs_sound (v p : Str) (h : matchVersionTs v = some p) :
    VersionTsDecomp v p := by
  unfold matchVersionTs at h
  split at h <;> try exact Option.noConfusion h
  split at h <;> try exact Option.noConfusion h
  split at h <;> try exact Option.noConfusion h
  split at h <;> try exact Option.noConfusion h
  split at h <;> try exact Option.noConfusion h
  split at h <;> try exact Option.noConfusion h
  rename_i x2 dnR0 rest10 y ys rest2 heq1 x1 d6R rest1b rest3 heq2 x0 d8R rest3b rest6 heq3
  by_cases hcond : rest6 ≠ [] ∧ ∀ c ∈ rest6, c ≠ '\n'
  · rw [if_pos hcond] at h
    rw [Option.some.injEq] at h
    subst h
    obtain ⟨e1, e2, -⟩ := takeDigitRun_sound v.reverse (y :: ys) ('-' :: rest2) heq1
    obtain ⟨f1, f2, f3⟩ := takeDigits_sound 6 rest2 d6R ('.' :: rest3) heq2
    obtain ⟨g1, g2, g3⟩ := takeDigits_sound 8 rest3 d8R ('-' :: rest6) heq3
    have hvrev : v.reverse = (y :: ys) ++ '-' :: (d6R ++ '.' :: (d8R ++ '-' :: rest6)) := by
      rw [e1, f1, g1]
    have hv2 := congrArg List.reverse hvrev
    rw [List.reverse_reverse] at hv2
    refine ⟨d8R.reverse, d6R.reverse, (y :: ys).reverse, ?_, ?_, ?_, ?_, ?_, ?_, ?_, ?_, ?_⟩
    · rw [hv2]
      simp [List.reverse_append, List.reverse_cons, List.append_assoc]
    · simpa using hcond.1
    · intro c hc
      exact hcond.2 c (List.mem_reverse.mp hc)
    · rw [List.length_reverse, g2]
    · intro c hc
      exact g3 c (List.mem_reverse.mp hc)
    · rw [List.length_reverse, f2]
    · intro c hc
      exact f3 c (List.mem_reverse.mp hc)
    · simp
    · intro c hc
      exact e2 c (List.mem_reverse.mp hc)
  · rw [if_neg hcond] at h
    exact Option.noConfusion h

/-! ## Membership in the deduplicator output -/

theorem mem_filter_latest_iff (assets : List AssetRecord) (a : AssetRecord) :
    a ∈ filter_latest_snapshots assets ↔
      a ∈ assets ∧ (bucket_of (version_latest assets) a = Bucket.nonSnap ∨
        bucket_of (version_latest assets) a = Bucket.keptSnap) := by
  simp only [filter_latest_snapshots, List.mem_append, List.mem_filter, decide_eq_true_eq]
  tauto

theorem matchVersionTs_iff (v p : Str) : matchVersionTs v = some p ↔ VersionTsDecomp v p :=
  ⟨matchVersionTs_sound v p, matchVersionTs_complete v p⟩

/-! ## Further helper lemmas about the deduplicator -/

theorem filter_latest_snapshots_eq (assets : List AssetRecord) :
    filter_latest_snapshots assets =
      assets.filter
          (fun a => decide (bucket_of (version_latest assets) a = Bucket.nonSnap)) ++
        assets.filter
          (fun a => decide (bucket_of (version_latest assets) a = Bucket.keptSnap)) := rfl

theorem mem_dedup_snapTs (assets : List AssetRecord) (a : AssetRecord)
    (info : ArtifactInfo) (key ts : Str) (hc : classify a = AssetClass.snapTs info key ts)
    (ha : a ∈ filter_latest_snapshots assets) :
    dictGet (version_latest assets) key = some ts := by
  rw [mem_filter_latest_iff] at ha
  obtain ⟨-, hor⟩ := ha
  by_cases hd : dictGet (version_latest assets) key = some ts
  · exact hd
  · exfalso
    rcases hor with h | h <;> simp [bucket_of, hc, hd] at h

theorem mem_observed_ts_of_mem (assets : List AssetRecord) (a : AssetRecord)
    (info : ArtifactInfo) (key ts : Str) (hc : classify a = AssetClass.snapTs info key ts)
    (ha : a ∈ assets) : ts ∈ observed_ts assets key := by
  rw [observed_ts, List.mem_filterMap]
  exact ⟨a, ha, by simp [hc]⟩

theorem observed_ts_mem_inv (assets : List AssetRecord) (key u : Str)
    (hu : u ∈ observed_ts assets key) :
    ∃ a ∈ assets, ∃ info, classify a = AssetClass.snapTs info key u := by
  rw [observed_ts, List.mem_filterMap] at hu
  obtain ⟨a, ha, hfa⟩ := hu
  cases hc : classify a with
  | snapTs info key2 ts2 =>
    simp only [hc] at hfa
    by_cases hk : key2 = key
    · rw [if_pos hk, Option.some.injEq] at hfa
      subst hfa
      exact ⟨a, ha, info, hk ▸ hc⟩
    · rw [if_neg hk] at hfa
      exact Option.noConfusion hfa
  | emptyPath => simp [hc] at hfa
  | plain => simp [hc] at hfa
  | snapNoParse => simp [hc] at hfa
  | snapNoTs info => simp [hc] at hfa

theorem isMaxObservedB_iff (assets : List AssetRecord) (k ts : Str) :
    isMaxObservedB assets k ts = true ↔
      (ts ∈ observed_ts assets k ∧ ∀ u ∈ observed_ts assets k, strLtB ts u = false) := by
  simp [isMaxObservedB, List.all_eq_true]

theorem decide_dictGet_eq_isMaxObservedB (assets : List AssetRecord) (k ts : Str) :
    decide (dictGet (version_latest assets) k = some ts) = isMaxObservedB assets k ts := by
  rw [Bool.eq_iff_iff, decide_eq_true_eq, isMaxObservedB_iff]
  exact dictGet_version_latest_iff assets k ts

theorem download_file_go_congr (fuel : Nat) :
    ∀ (attempt : Nat) (o1 o2 : Nat → AttemptResult),
      (∀ j, attempt ≤ j → j < attempt + fuel → o2 j = o1 j) →
      download_file_go o2 fuel attempt = download_file_go o1 fuel attempt := by
  induction fuel with
  | zero => intro attempt o1 o2 _; rfl
  | succ n ih =>
    intro attempt o1 o2 h
    simp only [download_file_go]
    rw [h attempt (Nat.le_refl _) (by omega)]
    cases o1 attempt with
    | notFound => rfl
    | success => rfl
    | transient => exact ih (attempt + 1) o1 o2 (fun j h1 h2 => h j (by omega) (by omega))

theorem length_filter_disjoint {α : Type} (p q : α → Bool)
    (hpq : ∀ a, p a = true → q a = false) :
    ∀ l : List α, (l.filter p).length + (l.filter q).length ≤ l.length := by
  intro l
  induction l with
  | nil => simp
  | cons a l ih =>
    by_cases hp : p a
    · have hq := hpq a hp
      simp only [List.filter_cons, hp, hq, if_true, if_false, Bool.false_eq_true,
        List.length_cons]
      omega
    · by_cases hq : q a <;>
        simp only [List.filter_cons, hp, hq, if_true, if_false, Bool.false_eq_true,
          List.length_cons] <;> omega

/-! ## Claim theorems -/

/-- C7: `parse_artifact_info` fails exactly on normalized paths with fewer
than 4 slash-separated segments; with 4 or more segments it returns the
last segment as filename, the second-to-last as the version the base
version is computed from, the third-to-last as artifact id, and all
earlier segments rejoined with `/` as the group path (the reversed
segment list `filename :: version :: artifact_id :: rest` names exactly
these positions, and `rest.reverse` is the list of all segments except
the last three). -/
theorem parse_artifact_info_segments (path : Str) :
    ((splitSlash (stripSlashes path)).length < 4 → parse_artifact_info path = none) ∧
    (4 ≤ (splitSlash (stripSlashes path)).length →
      ∃ filename version artifact_id rest,
        (splitSlash (stripSlashes path)).reverse =
          filename :: version :: artifact_id :: rest ∧
        rest ≠ [] ∧
        parse_artifact_info path =
          some { group_path := joinSlash rest.reverse
               , artifact_id := artifact_id
               , base_version := base_version_of version
               , filename := filename
               , timestamp := timestamp_of filename }) := by
  constructor
  · intro hlen
    rcases hrev : (splitSlash (stripSlashes path)).reverse with
      _ | ⟨f, _ | ⟨v, _ | ⟨aid, _ | ⟨g, gs⟩⟩⟩⟩
    · simp [parse_artifact_info, hrev]
    · simp [parse_artifact_info, hrev]
    · simp [parse_artifact_info, hrev]
    · simp [parse_artifact_info, hrev]
    · exfalso
      have hl := congrArg List.length hrev
      rw [List.length_reverse] at hl
      simp only [List.length_cons, List.length_nil] at hl
      omega
  · intro hlen
    rcases hrev : (splitSlash (stripSlashes path)).reverse with
      _ | ⟨f, _ | ⟨v, _ | ⟨aid, _ | ⟨g, gs⟩⟩⟩⟩ <;>
      (try (exfalso; have hl := congrArg List.length hrev;
            rw [List.length_reverse] at hl;
            simp only [List.length_cons, List.length_nil] at hl; omega))
    exact ⟨f, v, aid, g :: gs, rfl, by simp, by simp [parse_artifact_info, hrev]⟩

/-- Witness for C7 at the concrete paths `a/b/c` (3 segments, fails) and
`g/a/1.0/f.jar` (4 segments, succeeds). -/
theorem parse_artifact_info_segments_witness :
    parse_artifact_info "a/b/c".data = none ∧
    ∃ filename version artifact_id rest,
      (splitSlash (stripSlashes "g/a/1.0/f.jar".data)).reverse =
        filename :: version :: artifact_id :: rest ∧
      rest ≠ [] ∧
      parse_artifact_info "g/a/1.0/f.jar".data =
        some { group_path := joinSlash rest.reverse
             , artifact_id := artifact_id
             , base_version := base_version_of version
             , filename := filename
             , timestamp := timestamp_of filename } :=
  ⟨(parse_artifact_info_segments "a/b/c".data).1 (by decide),
   (parse_artifact_info_segments "g/a/1.0/f.jar".data).2 (by decide)⟩

/-- C2: the scan pass orders timestamps by plain string comparison, and
this misorders build numbers of different digit counts.  With two records
of the same `VersionKey` carrying build numbers `10` and `9` (same date
and time), the string order calls `...-10` smaller than `...-9`, the scan
pass stores `...-9` as the maximum, and the deduplicator retains the
build-9 record and drops the numerically later build-10 record. -/
theorem scan_pass_string_comparison_misorders :
    (parse_artifact_info (stripSlashes assetBuild10.path)).map ArtifactInfo.timestamp =
        some (some "20230101.100000-10".data) ∧
    (parse_artifact_info (stripSlashes assetBuild9.path)).map ArtifactInfo.timestamp =
        some (some "20230101.100000-9".data) ∧
    strLtB "20230101.100000-10".data "20230101.100000-9".data = true ∧
    dictGet (version_latest [assetBuild10, assetBuild9])
        "com/acme/lib/1.0-SNAPSHOT".data = some "20230101.100000-9".data ∧
    filter_latest_snapshots [assetBuild10, assetBuild9] = [assetBuild9] := by
  decide

/-- C4 (code bug): the `search_assets` path filter accepts a record from
the sibling group `com/example2` when filtering for group prefix
`com/example`, because the disjunct `item_path.startswith(path_prefix)`
at line 108 subsumes the `/`-bounded check: the sibling's path neither
equals the prefix nor starts with the prefix followed by `/`, yet the
filter keeps it. -/
theorem search_filter_accepts_sibling_group :
    group_to_path_pfx "com.example".data = "com/example".data ∧
    search_keep "com/example".data assetSibling = true ∧
    search_filter "com/example".data [assetSibling] = [assetSibling] ∧
    lstripSlashes assetSibling.path ≠ "com/example".data ∧
    ("com/example/".data).isPrefixOf (lstripSlashes assetSibling.path) = false := by
  decide

/-- C3 counterexample: the claim guards the base version on the substring
`SNAPSHOT`, the code on `-SNAPSHOT`.  For the parsed path
`com/acme/lib/SNAPSHOT-20230101.123456-1/lib.jar` the version segment
contains `SNAPSHOT`, so the claim predicts an unchanged base version, but
the code rewrites it to `SNAPSHOT-SNAPSHOT`. -/
theorem base_version_guard_counterexample :
    (parse_artifact_info "com/acme/lib/SNAPSHOT-20230101.123456-1/lib.jar".data).map
        ArtifactInfo.base_version = some "SNAPSHOT-SNAPSHOT".data ∧
    containsSub snapshotWord "SNAPSHOT-20230101.123456-1".data = true ∧
    base_version_claimC3 "SNAPSHOT-20230101.123456-1".data =
        "SNAPSHOT-20230101.123456-1".data ∧
    "SNAPSHOT-SNAPSHOT".data ≠ "SNAPSHOT-20230101.123456-1".data := by
  decide

/-- C3 (amended): for every parsed path the base version is computed from
the second-to-last segment by `base_version_of`, and `base_version_of`
(i) leaves a version containing the literal substring `-SNAPSHOT`
unchanged, (ii) rewrites a version that decomposes as
`<prefix>-<8 digits>.<6 digits>-<integer>` (the whole version) to
`prefix ++ "-SNAPSHOT"`, and (iii) leaves every other version
unchanged. -/
theorem base_version_normalization (version : Str) :
    (∀ path filename artifact_id rest,
      (splitSlash (stripSlashes path)).reverse =
        filename :: version :: artifact_id :: rest → rest ≠ [] →
      ∃ info, parse_artifact_info path = some info ∧
        info.base_version = base_version_of version) ∧
    (containsSub dashSnapshot version = true → base_version_of version = version) ∧
    (containsSub dashSnapshot version = false →
      ∀ p, VersionTsDecomp version p → base_version_of version = p ++ dashSnapshot) ∧
    (containsSub dashSnapshot version = false →
      (∀ p, ¬ VersionTsDecomp version p) → base_version_of version = version) := by
  refine ⟨?_, ?_, ?_, ?_⟩
  · intro path filename artifact_id rest hrev hne
    cases rest with
    | nil => exact absurd rfl hne
    | cons g gs =>
      refine ⟨{ group_path := joinSlash (g :: gs).reverse
              , artifact_id := artifact_id
              , base_version := base_version_of version
              , filename := filename
              , timestamp := timestamp_of filename }, ?_, rfl⟩
      simp [parse_artifact_info, hrev]
  · intro h
    simp [base_version_of, h]
  · intro h p hp
    have hm := matchVersionTs_complete version p hp
    simp [base_version_of, h, hm]
  · intro h hno
    simp only [base_version_of, h, Bool.false_eq_true, if_false]
    cases hm : matchVersionTs version with
    | none => rfl
    | some p => exact absurd (matchVersionTs_sound version p hm) (hno p)

/-- Witness for the amended C3 at concrete versions: `1.0-SNAPSHOT`
(contains `-SNAPSHOT`, unchanged) and `1.0-20230101.123456-1`
(timestamped, normalized to `1.0-SNAPSHOT`). -/
theorem base_version_normalization_witness :
    base_version_of "1.0-SNAPSHOT".data = "1.0-SNAPSHOT".data ∧
    base_version_of "1.0-20230101.123456-1".data = "1.0".data ++ dashSnapshot :=
  ⟨(base_version_normalization "1.0-SNAPSHOT".data).2.1 (by decide),
   (base_version_normalization "1.0-20230101.123456-1".data).2.2.1 (by decide) "1.0".data
     ⟨"20230101".data, "123456".data, "1".data, by decide, by decide, by decide, by decide,
      by decide, by decide, by decide, by decide, by decide⟩⟩

/-- C8: `download_file` with `retries = 3` attempts a transiently failing
fetch at most 3 times and then reports failure `(False, False)`; an HTTP
404 on any attempt returns the skipped outcome `(False, True)` at once,
and the result never depends on outcomes beyond the first 3 attempts. -/
theorem download_file_retry_behaviour (o : Nat → AttemptResult) :
    ((∀ j, j < 3 → o j = AttemptResult.transient) → download_file o 3 = (false, false)) ∧
    (∀ k, k < 3 → (∀ j, j < k → o j = AttemptResult.transient) →
      o k = AttemptResult.notFound → download_file o 3 = (false, true)) ∧
    (∀ o2 : Nat → AttemptResult, (∀ j, j < 3 → o2 j = o j) →
      download_file o2 3 = download_file o 3) := by
  refine ⟨?_, ?_, ?_⟩
  · intro h
    have h0 := h 0 (by omega)
    have h1 := h 1 (by omega)
    have h2 := h 2 (by omega)
    simp [download_file, download_file_go, h0, h1, h2]
  · intro k hk hpre h404
    interval_cases k
    · simp [download_file, download_file_go, h404]
    · have h0 := hpre 0 (by omega)
      simp [download_file, download_file_go, h0, h404]
    · have h0 := hpre 0 (by omega)
      have h1 := hpre 1 (by omega)
      simp [download_file, download_file_go, h0, h1, h404]
  · intro o2 h
    exact download_file_go_congr 3 0 o o2 (fun j h1 h2 => h j (by omega))

/-- Witness for C8: all attempts transient gives the failed outcome; a
404 on the second attempt gives the skipped outcome. -/
theorem download_file_retry_behaviour_witness :
    download_file (fun _ => AttemptResult.transient) 3 = (false, false) ∧
    download_file
        (fun j => if j = 1 then AttemptResult.notFound else AttemptResult.transient) 3 =
      (false, true) :=
  ⟨(download_file_retry_behaviour _).1 (fun _ _ => rfl),
   (download_file_retry_behaviour _).2.1 1 (by omega)
     (fun j hj => by
       have hj0 : j = 0 := by omega
       subst hj0
       rfl)
     (by rfl)⟩

/-- C1: among the snapshot-family records of the input, the deduplicator
retains a timestamped record (one whose classification is `snapTs`)
exactly when its timestamp is a maximum of the timestamps observed for
its version key under the scan pass's string order, so all records
sharing the maximum are retained; every snapshot-family record with no
extractable timestamp (classification `snapNoTs`, e.g. metadata files, or
`snapNoParse`) is always retained; and no two surviving timestamped
records of one key carry distinct timestamps. -/
theorem dedup_retains_exactly_max_timestamp (assets : List AssetRecord) :
    (∀ a ∈ assets, ∀ info key ts, classify a = AssetClass.snapTs info key ts →
      (a ∈ filter_latest_snapshots assets ↔
        (ts ∈ observed_ts assets key ∧
          ∀ u ∈ observed_ts assets key, strLtB ts u = false))) ∧
    (∀ a ∈ assets, ∀ info, classify a = AssetClass.snapNoTs info →
      a ∈ filter_latest_snapshots assets) ∧
    (∀ a ∈ assets, classify a = AssetClass.snapNoParse →
      a ∈ filter_latest_snapshots assets) ∧
    (∀ a b, a ∈ filter_latest_snapshots assets → b ∈ filter_latest_snapshots assets →
      ∀ ia ib key tsa tsb, classify a = AssetClass.snapTs ia key tsa →
        classify b = AssetClass.snapTs ib key tsb → tsa = tsb) := by
  refine ⟨?_, ?_, ?_, ?_⟩
  · intro a ha info key ts hc
    constructor
    · intro hmem
      exact (dictGet_version_latest_iff assets key ts).mp
        (mem_dedup_snapTs assets a info key ts hc hmem)
    · intro hmax
      have hd := (dictGet_version_latest_iff assets key ts).mpr hmax
      rw [mem_filter_latest_iff]
      refine ⟨ha, Or.inr ?_⟩
      simp [bucket_of, hc, hd]
  · intro a ha info hc
    rw [mem_filter_latest_iff]
    exact ⟨ha, Or.inr (by simp [bucket_of, hc])⟩
  · intro a ha hc
    rw [mem_filter_latest_iff]
    exact ⟨ha, Or.inl (by simp [bucket_of, hc])⟩
  · intro a b hma hmb ia ib key tsa tsb hca hcb
    have h1 := mem_dedup_snapTs assets a ia key tsa hca hma
    have h2 := mem_dedup_snapTs assets b ib key tsb hcb hmb
    rw [h1] at h2
    exact Option.some.inj h2

/-- Witness for C1: a single timestamped snapshot record carries the
maximum observed timestamp of its key, so it is retained. -/
theorem dedup_retains_exactly_max_timestamp_witness :
    assetC1 ∈ filter_latest_snapshots [assetC1] :=
  ((dedup_retains_exactly_max_timestamp [assetC1]).1 assetC1 (by decide)
      { group_path := "com/acme".data
      , artifact_id := "lib".data
      , base_version := "1.0-SNAPSHOT".data
      , filename := "lib-1.0-20230101.123456-1.jar".data
      , timestamp := some "20230101.123456-1".data }
      "com/acme/lib/1.0-SNAPSHOT".data "20230101.123456-1".data (by decide)).mpr
    (by decide)

/-- C5 counterexample: a record with an empty (or missing) path is not
snapshot-family, yet the deduplicator drops it instead of passing it
through unchanged. -/
theorem nonsnapshot_empty_path_dropped :
    isSnapshotFamily (stripSlashes assetEmptyPath.path) = false ∧
    assetEmptyPath ∈ ([assetEmptyPath] : List AssetRecord) ∧
    filter_latest_snapshots [assetEmptyPath] = [] := by
  decide

/-- C5 (amended): restricted to non-snapshot records with a nonempty
normalized path, the deduplicator is the identity (same records, same
multiplicities, same order); records whose normalized path is empty are
dropped, so every output record has a nonempty normalized path. -/
theorem dedup_identity_on_nonsnapshot (assets : List AssetRecord) :
    (filter_latest_snapshots assets).filter
        (fun a => decide (stripSlashes a.path ≠ []) &&
          !isSnapshotFamily (stripSlashes a.path)) =
      assets.filter
        (fun a => decide (stripSlashes a.path ≠ []) &&
          !isSnapshotFamily (stripSlashes a.path)) ∧
    (filter_latest_snapshots assets).all
        (fun a => decide (stripSlashes a.path ≠ [])) = true := by
  have hplain : ∀ a : AssetRecord,
      (decide (stripSlashes a.path ≠ []) && !isSnapshotFamily (stripSlashes a.path)) = true ↔
        classify a = AssetClass.plain := by
    intro a
    rw [classify_plain_iff]
    simp
  constructor
  · rw [filter_latest_snapshots_eq, List.filter_append, List.filter_filter,
      List.filter_filter]
    have e1 : ∀ x ∈ assets,
        ((decide (stripSlashes x.path ≠ []) &&
          !isSnapshotFamily (stripSlashes x.path)) &&
          decide (bucket_of (version_latest assets) x = Bucket.nonSnap)) =
        (decide (stripSlashes x.path ≠ []) &&
          !isSnapshotFamily (stripSlashes x.path)) := by
      intro x _
      by_cases hx : (decide (stripSlashes x.path ≠ []) &&
          !isSnapshotFamily (stripSlashes x.path)) = true
      · have hc := (hplain x).mp hx
        simp [hx, bucket_of, hc]
      · rw [Bool.not_eq_true] at hx
        simp only [hx, Bool.false_and]
    have e2 : ∀ x ∈ assets,
        ((decide (stripSlashes x.path ≠ []) &&
          !isSnapshotFamily (stripSlashes x.path)) &&
          decide (bucket_of (version_latest assets) x = Bucket.keptSnap)) =
        false := by
      intro x _
      by_cases hx : (decide (stripSlashes x.path ≠ []) &&
          !isSnapshotFamily (stripSlashes x.path)) = true
      · have hc := (hplain x).mp hx
        simp [hx, bucket_of, hc]
      · rw [Bool.not_eq_true] at hx
        simp only [hx, Bool.false_and]
    rw [List.filter_congr e1, List.filter_congr e2]
    simp
  · rw [List.all_eq_true]
    intro a ha
    obtain ⟨-, hor⟩ := (mem_filter_latest_iff assets a).mp ha
    rw [decide_eq_true_eq]
    intro h0
    have hc : classify a = AssetClass.emptyPath := (classify_emptyPath_iff a).mpr h0
    rcases hor with h | h <;> simp [bucket_of, hc] at h

/-- C6 counterexample: a snapshot-family record whose coordinate fails to
parse (`lib-SNAPSHOT`, one segment) is emitted in the first
(`non_snapshot`) group, not among the retained snapshot-family records,
and a record with an empty path is dropped entirely — so the code output
`[assetBadSnap, assetPlainJar]` differs from the grouping the claim
describes, `[assetEmptyPath, assetPlainJar, assetBadSnap]`. -/
theorem dedup_output_shape_counterexample :
    filter_latest_snapshots [assetBadSnap, assetEmptyPath, assetPlainJar] =
        [assetBadSnap, assetPlainJar] ∧
    claimC6_output [assetBadSnap, assetEmptyPath, assetPlainJar] =
        [assetEmptyPath, assetPlainJar, assetBadSnap] ∧
    ([assetBadSnap, assetPlainJar] : List AssetRecord) ≠
        [assetEmptyPath, assetPlainJar, assetBadSnap] := by
  decide

/-- C6 (amended): the output equals all records with a nonempty
normalized path that are non-snapshot or snapshot-family with a failed
parse (first group), followed by all parsed snapshot-family records with
a nonempty normalized path kept for having no timestamp or a maximum
observed timestamp of their key (second group), each group preserving
its relative input order; records with an empty normalized path are
dropped. -/
theorem dedup_output_shape (assets : List AssetRecord) :
    filter_latest_snapshots assets =
      assets.filter amendedC6_first ++ assets.filter (amendedC6_second assets) := by
  rw [filter_latest_snapshots_eq]
  have e1 : ∀ x ∈ assets,
      decide (bucket_of (version_latest assets) x = Bucket.nonSnap) =
        amendedC6_first x := by
    intro x _
    cases hc : classify x with
    | emptyPath =>
      have hs := (classify_emptyPath_iff x).mp hc
      simp [bucket_of, hc, amendedC6_first, hs]
    | plain =>
      obtain ⟨hne, hfam⟩ := (classify_plain_iff x).mp hc
      simp [bucket_of, hc, amendedC6_first, hne, hfam]
    | snapNoParse =>
      obtain ⟨hne, hfam, hparse⟩ := (classify_snapNoParse_iff x).mp hc
      simp [bucket_of, hc, amendedC6_first, hne, hfam, hparse]
    | snapNoTs info =>
      obtain ⟨hne, hfam, hparse, hts⟩ := (classify_snapNoTs_iff x info).mp hc
      simp [bucket_of, hc, amendedC6_first, hne, hfam, hparse]
    | snapTs info key ts =>
      obtain ⟨hne, hfam, hparse, hts, hkey⟩ := (classify_snapTs_iff x info key ts).mp hc
      by_cases hd : dictGet (version_latest assets) key = some ts <;>
        simp [bucket_of, hc, hd, amendedC6_first, hne, hfam, hparse]
  have e2 : ∀ x ∈ assets,
      decide (bucket_of (version_latest assets) x = Bucket.keptSnap) =
        amendedC6_second assets x := by
    intro x _
    cases hc : classify x with
    | emptyPath =>
      have hs := (classify_emptyPath_iff x).mp hc
      simp [bucket_of, hc, amendedC6_second, hs]
    | plain =>
      obtain ⟨hne, hfam⟩ := (classify_plain_iff x).mp hc
      simp [bucket_of, hc, amendedC6_second, hne, hfam]
    | snapNoParse =>
      obtain ⟨hne, hfam, hparse⟩ := (classify_snapNoParse_iff x).mp hc
      simp [bucket_of, hc, amendedC6_second, hne, hfam, hparse]
    | snapNoTs info =>
      obtain ⟨hne, hfam, hparse, hts⟩ := (classify_snapNoTs_iff x info).mp hc
      simp [bucket_of, hc, amendedC6_second, hne, hfam, hparse, hts]
    | snapTs info key ts =>
      obtain ⟨hne, hfam, hparse, hts, hkey⟩ := (classify_snapTs_iff x info key ts).mp hc
      have hb : decide (bucket_of (version_latest assets) x = Bucket.keptSnap) =
          isMaxObservedB assets key ts := by
        rw [← decide_dictGet_eq_isMaxObservedB]
        by_cases hd : dictGet (version_latest assets) key = some ts <;>
          simp [bucket_of, hc, hd]
      rw [hb]
      simp [amendedC6_second, hne, hfam, hparse, hts, ← hkey]
  rw [List.filter_congr e1, List.filter_congr e2]

/-- C9: the deduplicator never fabricates or duplicates records — every
record value occurs in the output at most as often as in the input, the
output is never longer than the input, and every output record occurs in
the input. -/
theorem dedup_output_drawn_from_input (assets : List AssetRecord) :
    (∀ a : AssetRecord, (filter_latest_snapshots assets).count a ≤ assets.count a) ∧
    (filter_latest_snapshots assets).length ≤ assets.length ∧
    (∀ a ∈ filter_latest_snapshots assets, a ∈ assets) := by
  refine ⟨?_, ?_, ?_⟩
  · intro a
    rw [filter_latest_snapshots_eq, List.count_append]
    by_cases h1 : bucket_of (version_latest assets) a = Bucket.nonSnap
    · have h2 : (assets.filter
          (fun x => decide (bucket_of (version_latest assets) x = Bucket.keptSnap))).count a
          = 0 := by
        apply List.count_eq_zero_of_not_mem
        intro hmem
        rw [List.mem_filter] at hmem
        have hx := hmem.2
        simp [h1] at hx
      have h3 := List.Sublist.count_le
        (@List.filter_sublist AssetRecord
          (fun x => decide (bucket_of (version_latest assets) x = Bucket.nonSnap)) assets) a
      omega
    · have h2 : (assets.filter
          (fun x => decide (bucket_of (version_latest assets) x = Bucket.nonSnap))).count a
          = 0 := by
        apply List.count_eq_zero_of_not_mem
        intro hmem
        rw [List.mem_filter] at hmem
        have hx := hmem.2
        simp [decide_eq_true_eq] at hx
        exact h1 hx
      have h3 := List.Sublist.count_le
        (@List.filter_sublist AssetRecord
          (fun x => decide (bucket_of (version_latest assets) x = Bucket.keptSnap)) assets) a
      omega
  · rw [filter_latest_snapshots_eq, List.length_append]
    refine length_filter_disjoint _ _ ?_ assets
    intro a ha
    rw [decide_eq_true_eq] at ha
    simp [ha]
  · intro a ha
    exact ((mem_filter_latest_iff assets a).mp ha).1

/-- Witness for C9: an output record of a singleton input is an input
record. -/
theorem dedup_output_drawn_from_input_witness :
    assetC9 ∈ ([assetC9] : List AssetRecord) :=
  (dedup_output_drawn_from_input [assetC9]).2.2 assetC9 (by decide)

/-- C10: the deduplicator is idempotent — applying it to its own output
returns that output unchanged, because every surviving timestamped
snapshot record carries the maximum timestamp for its key among the
survivors, non-snapshot survivors are classification-stable, and no
surviving record has an empty path. -/
theorem dedup_idempotent (assets : List AssetRecord) :
    filter_latest_snapshots (filter_latest_snapshots assets) =
      filter_latest_snapshots assets := by
  have hbucket : ∀ a ∈ filter_latest_snapshots assets,
      bucket_of (version_latest (filter_latest_snapshots assets)) a =
        bucket_of (version_latest assets) a := by
    intro a ha
    cases hc : classify a with
    | emptyPath =>
      exfalso
      obtain ⟨-, hor⟩ := (mem_filter_latest_iff assets a).mp ha
      rcases hor with h | h <;> simp [bucket_of, hc] at h
    | plain => simp [bucket_of, hc]
    | snapNoParse => simp [bucket_of, hc]
    | snapNoTs info => simp [bucket_of, hc]
    | snapTs info key ts =>
      have hd : dictGet (version_latest assets) key = some ts :=
        mem_dedup_snapTs assets a info key ts hc ha
      have hd2 : dictGet (version_latest (filter_latest_snapshots assets)) key = some ts := by
        rw [dictGet_version_latest_iff]
        constructor
        · exact mem_observed_ts_of_mem _ a info key ts hc ha
        · intro u hu
          obtain ⟨b, hb, ib, hcb⟩ := observed_ts_mem_inv _ key u hu
          have hdb := mem_dedup_snapTs assets b ib key u hcb hb
          rw [hd] at hdb
          rw [← Option.some.inj hdb]
          exact strLtB_irrefl ts
      simp [bucket_of, hc, hd, hd2]
  have e1 : (filter_latest_snapshots assets).filter
      (fun a => decide (bucket_of (version_latest (filter_latest_snapshots assets)) a =
        Bucket.nonSnap)) =
    (filter_latest_snapshots assets).filter
      (fun a => decide (bucket_of (version_latest assets) a = Bucket.nonSnap)) := by
    apply List.filter_congr
    intro x hx
    rw [hbucket x hx]
  have e2 : (filter_latest_snapshots assets).filter
      (fun a => decide (bucket_of (version_latest (filter_latest_snapshots assets)) a =
        Bucket.keptSnap)) =
    (filter_latest_snapshots assets).filter
      (fun a => decide (bucket_of (version_latest assets) a = Bucket.keptSnap)) := by
    apply List.filter_congr
    intro x hx
    rw [hbucket x hx]
  rw [filter_latest_snapshots_eq (filter_latest_snapshots assets), e1, e2]
  rw [filter_latest_snapshots_eq assets, List.filter_append, List.filter_append]
  have hns1 : (assets.filter
      (fun a => decide (bucket_of (version_latest assets) a = Bucket.nonSnap))).filter
      (fun a => decide (bucket_of (version_latest assets) a = Bucket.nonSnap)) =
    assets.filter
      (fun a => decide (bucket_of (version_latest assets) a = Bucket.nonSnap)) := by
    rw [List.filter_eq_self]
    intro a ha
    exact (List.mem_filter.mp ha).2
  have hls1 : (assets.filter
      (fun a => decide (bucket_of (version_latest assets) a = Bucket.keptSnap))).filter
      (fun a => decide (bucket_of (version_latest assets) a = Bucket.nonSnap)) = [] := by
    rw [List.filter_eq_nil_iff]
    intro a ha hb1
    have hb2 := (List.mem_filter.mp ha).2
    rw [decide_eq_true_eq] at hb1 hb2
    rw [hb1] at hb2
    exact Bucket.noConfusion hb2
  have hns2 : (assets.filter
      (fun a => decide (bucket_of (version_latest assets) a = Bucket.nonSnap))).filter
      (fun a => decide (bucket_of (version_latest assets) a = Bucket.keptSnap)) = [] := by
    rw [List.filter_eq_nil_iff]
    intro a ha hb1
    have hb2 := (List.mem_filter.mp ha).2
    rw [decide_eq_true_eq] at hb1 hb2
    rw [hb1] at hb2
    exact Bucket.noConfusion hb2
  have hls2 : (assets.filter
      (fun a => decide (bucket_of (version_latest assets) a = Bucket.keptSnap))).filter
      (fun a => decide (bucket_of (version_latest assets) a = Bucket.keptSnap)) =
    assets.filter
      (fun a => decide (bucket_of (version_latest assets) a = Bucket.keptSnap)) := by
    rw [List.filter_eq_self]
    intro a ha
    exact (List.mem_filter.mp ha).2
  rw [hns1, hls1, hns2, hls2, List.append_nil, List.nil_append]

end DownloadNexus
